import Mathlib

/-!
Verification of the LinkedIn-Automator stealth / throttling core.

This file gives a shallow embedding, in Lean 4, of the functions of
`pkg/stealth` (mouse paths, keystroke sequences, scroll sequences, backoff
timing) and of the `ConnectionManager` rate limiter, faithful to the Go
source.  Go `float64` values are modelled as real numbers, Go `int` /
`int64` values as `Int` (with explicit two's-complement wraparound where
overflow is relevant), and the shared `math/rand` source as an oracle: a
pair of infinite tapes, one of reals in `[0,1)` consumed by `Float64`, one
of naturals consumed by `Intn` / `Int63n` (reduced mod the bound, matching
the contract that `Intn n` yields a value in `[0, n)`).
-/

namespace LinkedInAuto

/-- Oracle for Go's `*rand.Rand`: a tape of `Float64` draws and a tape of
`Intn` draws.  Each call consumes the head of the corresponding tape. -/
structure Rng where
  floats : Nat → Real
  ints : Nat → Nat

/-- Consume one `rand.Float64()` draw. -/
def nextF (g : Rng) : Real × Rng :=
  (g.floats 0, ⟨fun k => g.floats (k + 1), g.ints⟩)

/-- Consume one `rand.Intn(n)` (or `Int63n`) draw; the tape value is reduced
mod `n` so that the result lies in `[0, n)` as `Intn` guarantees. -/
def nextN (g : Rng) (n : Nat) : Nat × Rng :=
  (g.ints 0 % n, ⟨g.floats, fun k => g.ints (k + 1)⟩)

/-- A concrete oracle used by witnesses and counterexamples: every
`Float64` draw is `1/2`, every `Intn` tape value is `0`.  Its tails are
itself, so draws can be evaluated by `rfl`. -/
noncomputable def gHalf : Rng := ⟨fun _ => 1 / 2, fun _ => 0⟩

/-- Go conversion `int(x)` / `time.Duration(x)` from a `float64`:
truncation toward zero. -/
noncomputable def intTrunc (x : Real) : Int :=
  if 0 ≤ x then ⌊x⌋ else -⌊-x⌋

theorem intTrunc_intCast (n : Int) : intTrunc (n : Real) = n := by
  unfold intTrunc
  by_cases h : (0 : Real) ≤ (n : Real)
  · simp [h]
  · simp [h, ← Int.cast_neg]

theorem intTrunc_nonneg {x : Real} (hx : 0 ≤ x) : 0 ≤ intTrunc x := by
  unfold intTrunc
  rw [if_pos hx]
  exact_mod_cast Int.floor_nonneg.mpr hx

theorem intTrunc_le {x : Real} (hx : 0 ≤ x) : (intTrunc x : Real) ≤ x := by
  unfold intTrunc
  rw [if_pos hx]
  exact Int.floor_le x

theorem intTrunc_mono {x y : Real} (hx : 0 ≤ x) (hxy : x ≤ y) :
    intTrunc x ≤ intTrunc y := by
  unfold intTrunc
  rw [if_pos hx, if_pos (hx.trans hxy)]
  exact Int.floor_le_floor hxy

/-- Two's-complement wraparound of a 64-bit signed integer, used where the
Go source can overflow `int64`. -/
def wrap64 (x : Int) : Int :=
  (x + 2 ^ 63) % 2 ^ 64 - 2 ^ 63

theorem wrap64_eq_self {x : Int} (h₁ : -(2 ^ 63) ≤ x) (h₂ : x < 2 ^ 63) :
    wrap64 x = x := by
  unfold wrap64
  omega

/-! ## ConnectionManager rate limiting (`canSendConnection`,
`checkAndResetCounts`, `incrementCount`, `GetRemainingQuota`)

The Go code keeps `dailyCount`, `hourlyCount` and `lastReset` on the
manager and compares `now.Day()` (day of month) and `now.Hour()` (hour of
day) against the last reset.  `GoTime` keeps exactly the calendar fields
the code and the claims need. -/

structure GoTime where
  year : Int
  month : Int
  day : Int
  hour : Int
deriving DecidableEq

structure RateLimitConfig where
  dailyConnectionLimit : Int
  hourlyConnectionLimit : Int
deriving DecidableEq

structure ConnState where
  dailyCount : Int
  hourlyCount : Int
  lastReset : GoTime
deriving DecidableEq

/-- `(*ConnectionManager).checkAndResetCounts`, part_003 lines 284-298. -/
def checkAndResetCounts (now : GoTime) (c : ConnState) : ConnState :=
  if now.day ≠ c.lastReset.day then
    { dailyCount := 0, hourlyCount := 0, lastReset := now }
  else if now.hour ≠ c.lastReset.hour then
    { c with hourlyCount := 0, lastReset := now }
  else c

/-- `(*ConnectionManager).canSendConnection`, part_003 lines 268-282.
Returns the decision together with the (possibly reset) state, since the Go
method mutates the receiver through `checkAndResetCounts`. -/
def canSendConnection (cfg : RateLimitConfig) (now : GoTime) (c : ConnState) :
    Bool × ConnState :=
  let c' := checkAndResetCounts now c
  if c'.dailyCount ≥ cfg.dailyConnectionLimit then (false, c')
  else if c'.hourlyCount ≥ cfg.hourlyConnectionLimit then (false, c')
  else (true, c')

/-- `(*ConnectionManager).incrementCount`, part_003 lines 300-303. -/
def incrementCount (c : ConnState) : ConnState :=
  { c with dailyCount := c.dailyCount + 1, hourlyCount := c.hourlyCount + 1 }

/-- `(*ConnectionManager).GetRemainingQuota`, part_003 lines 351-356.
Returns `(daily, hourly)` remaining quota plus the state after the call. -/
def GetRemainingQuota (cfg : RateLimitConfig) (now : GoTime) (c : ConnState) :
    (Int × Int) × ConnState :=
  let c' := checkAndResetCounts now c
  ((cfg.dailyConnectionLimit - c'.dailyCount,
    cfg.hourlyConnectionLimit - c'.hourlyCount), c')

/-! ## ScrollController (`pkg/stealth/scrolling.go`)

`GenerateScrollSequence` decomposes a total distance into chunks; each
chunk may be preceded by an uncompensated scroll-back ("up") action and
followed by a zero-delta pause.  `GenerateSmoothScrollSteps` subdivides a
delta into eased sub-steps whose final step is forced to the residual. -/

structure ScrollingConfig where
  enabled : Bool
  minScrollSpeed : Nat
  maxScrollSpeed : Nat
  scrollBackChance : Real
  pauseChance : Real
  smoothScrolling : Bool

structure ScrollAction where
  delta : Int
  duration : Int
  direction : String
deriving DecidableEq

/-- `calculateScrollAmount`, scrolling.go lines 80-95: jittered chunk,
clamped to the remaining distance, then raised to a minimum of 10. -/
noncomputable def calculateScrollAmount (g : Rng) (remaining : Int) (speed : Nat) :
    Int × Rng :=
  let j := nextN g (speed / 2)
  let baseAmount : Nat := speed + j.1
  let u := nextF j.2
  let variation : Real := (baseAmount : Real) * 0.2 * (u.1 * 2 - 1)
  let amount₀ : Int := intTrunc ((baseAmount : Real) + variation)
  let amount₁ : Int := if amount₀ > remaining then remaining else amount₀
  let amount₂ : Int := if amount₁ < 10 then 10 else amount₁
  (amount₂, u.2)

/-- `calculateScrollDuration`, scrolling.go lines 97-105 (nanoseconds). -/
noncomputable def calculateScrollDuration (cfg : ScrollingConfig) (g : Rng)
    (distance : Int) : Int × Rng :=
  if cfg.smoothScrolling then
    let baseDuration : Real := (distance : Real) / 2
    let u := nextF g
    let variation : Real := baseDuration * 0.3 * (u.1 * 2 - 1)
    (intTrunc (baseDuration + variation) * 1000000, u.2)
  else
    let n := nextN g 100
    (((50 + n.1 : Nat) : Int) * 1000000, n.2)

/-- The scroll-back branch of the loop body, scrolling.go lines 48-55: when
`remaining > 2*chunk`, draw the chance and possibly emit an uncompensated
reverse action of `chunk/3`. -/
noncomputable def scrollBackPart (cfg : ScrollingConfig) (g : Rng)
    (remaining scrollAmount : Int) : List ScrollAction × Rng :=
  if remaining > scrollAmount * 2 then
    let u := nextF g
    if u.1 < cfg.scrollBackChance then
      let d := calculateScrollDuration cfg u.2 (scrollAmount / 3)
      ([ScrollAction.mk (scrollAmount / 3) d.1 "up"], d.2)
    else ([], u.2)
  else ([], g)

/-- The pause branch of the loop body, scrolling.go lines 65-72. -/
noncomputable def pausePart (cfg : ScrollingConfig) (g : Rng) :
    List ScrollAction × Rng :=
  let f := nextF g
  if f.1 < cfg.pauseChance then
    let n := nextN f.2 2000
    ([ScrollAction.mk 0 (((500 + n.1 : Nat) : Int) * 1000000) "pause"], n.2)
  else ([], f.2)

/-- The `for remaining > 0` loop of `GenerateScrollSequence`, scrolling.go
lines 35-78.  Each iteration draws a speed, a chunk, optionally a
scroll-back action, appends the forward chunk, optionally a pause, and
recurses on `remaining - chunk`.  Terminates because every chunk is at
least 10. -/
noncomputable def scrollLoop (cfg : ScrollingConfig) (g : Rng) (remaining : Int) :
    List ScrollAction × Rng :=
  if _h : remaining ≤ 0 then ([], g)
  else
    let sp := nextN g (cfg.maxScrollSpeed - cfg.minScrollSpeed + 1)
    let am := calculateScrollAmount sp.2 remaining (cfg.minScrollSpeed + sp.1)
    let back := scrollBackPart cfg am.2 remaining am.1
    let dn := calculateScrollDuration cfg back.2 am.1
    let p := pausePart cfg dn.2
    let rest := scrollLoop cfg p.2 (remaining - am.1)
    (back.1 ++ ScrollAction.mk am.1 dn.1 "down" :: p.1 ++ rest.1, rest.2)
  termination_by remaining.toNat
  decreasing_by
    simp only [calculateScrollAmount] at *
    split_ifs at * <;> omega

/-- `GenerateScrollSequence`, scrolling.go lines 35-78. -/
noncomputable def GenerateScrollSequence (cfg : ScrollingConfig) (g : Rng)
    (totalDistance : Int) : List ScrollAction × Rng :=
  if cfg.enabled = false then ([ScrollAction.mk totalDistance 0 "down"], g)
  else scrollLoop cfg g totalDistance

/-- Signed delta of one action as the claim counts it: forward positive,
reverse negative, pause zero. -/
def signedDelta (a : ScrollAction) : Int :=
  if a.direction = "down" then a.delta
  else if a.direction = "up" then -a.delta
  else 0

/-- Delta counted only for forward ("down") actions. -/
def downDelta (a : ScrollAction) : Int :=
  if a.direction = "down" then a.delta else 0

/-- Delta counted only for reverse ("up") actions. -/
def upDelta (a : ScrollAction) : Int :=
  if a.direction = "up" then a.delta else 0

def signedSum (l : List ScrollAction) : Int := (l.map signedDelta).sum

def downSum (l : List ScrollAction) : Int := (l.map downDelta).sum

def upSum (l : List ScrollAction) : Int := (l.map upDelta).sum

/-- The sub-step loop of `GenerateSmoothScrollSteps`, scrolling.go lines
121-146, as a countdown recursion: `k` is the number of indices still to
emit, `i` the current index, so the Go condition `i == numSteps-1` is the
case `k = 1`. -/
noncomputable def smoothGo (totalDelta : Int) (numSteps : Nat) :
    Nat → Nat → Int → Rng → List Int × Rng
  | _, 0, _, g => ([], g)
  | _, 1, remaining, g => ([remaining], g)
  | i, k + 2, remaining, g =>
      let t : Real := (i : Real) / ((numSteps : Real) - 1)
      let eased : Real := 1 - (1 - t) ^ 3
      let step₀ : Int := intTrunc ((totalDelta : Real) *
        (eased - ((totalDelta - remaining : Int) : Real) / (totalDelta : Real)))
      let f := nextF g
      let variation : Int := intTrunc ((step₀ : Real) * 0.1 * (f.1 * 2 - 1))
      let step₁ := step₀ + variation
      let step₂ := if step₁ > remaining ∧ remaining > 0 then remaining else step₁
      let step₃ := if step₂ < -remaining ∧ remaining < 0 then -remaining else step₂
      let rest := smoothGo totalDelta numSteps (i + 1) (k + 1) (remaining - step₃) f.2
      (step₃ :: rest.1, rest.2)

/-- `GenerateSmoothScrollSteps`, scrolling.go lines 107-149. -/
noncomputable def GenerateSmoothScrollSteps (cfg : ScrollingConfig) (g : Rng)
    (totalDelta : Int) : List Int × Rng :=
  if cfg.smoothScrolling = false then ([totalDelta], g)
  else
    let n₀ : Int := intTrunc (|(totalDelta : Real)| / 20)
    let n₁ : Int := if n₀ < 5 then 5 else n₀
    let n₂ : Int := if n₁ > 50 then 50 else n₁
    smoothGo totalDelta n₂.toNat 0 n₂.toNat totalDelta g

/-! ## MouseController (`pkg/stealth/mouse.go`)

`GeneratePath` samples a Bezier curve through randomized control points at
`numSteps+1` eased parameter values, optionally appends an overshoot plus a
20-step corrective sub-curve, and optionally jitters every point. -/

@[ext]
structure Point where
  X : Real
  Y : Real

structure MouseMovementConfig where
  enabled : Bool
  minSpeed : Real
  maxSpeed : Real
  overshootEnabled : Bool
  microMovements : Bool
  bezierComplexity : Nat

/-- `binomial`, mouse.go lines 135-143: iterative exact binomial
coefficient. -/
def binomial (n k : Nat) : Nat :=
  let k' := if k > n - k then n - k else k
  (List.range k').foldl (fun r i => r * (n - i) / (i + 1)) 1

/-- `bernstein`, mouse.go lines 131-133. -/
noncomputable def bernstein (n k : Nat) (t : Real) : Real :=
  (binomial n k : Real) * t ^ k * (1 - t) ^ (n - k)

/-- The X accumulation of the `for i, p := range points` loop in
`bezierPoint`, mouse.go lines 119-129; `i` is the index of the list head. -/
noncomputable def bezierSumX : List Point → Nat → Nat → Real → Real
  | [], _, _, _ => 0
  | p :: ps, i, n, t => p.X * bernstein n i t + bezierSumX ps (i + 1) n t

/-- The Y accumulation of the same loop. -/
noncomputable def bezierSumY : List Point → Nat → Nat → Real → Real
  | [], _, _, _ => 0
  | p :: ps, i, n, t => p.Y * bernstein n i t + bezierSumY ps (i + 1) n t

/-- `bezierPoint`, mouse.go lines 119-129. -/
noncomputable def bezierPoint (points : List Point) (t : Real) : Point :=
  ⟨bezierSumX points 0 (points.length - 1) t,
    bezierSumY points 0 (points.length - 1) t⟩

/-- `applyEasing`, mouse.go lines 115-117: smoothstep. -/
noncomputable def applyEasing (t : Real) : Real := t * t * (3 - 2 * t)

/-- The interior-point loop of `generateControlPoints`, mouse.go lines
96-108: index `i` runs over `1 .. len-2`, `k` points remain to emit. -/
noncomputable def cpGo (s : Point) (dx dy distance : Real) (len : Nat) :
    Nat → Nat → Rng → List Point × Rng
  | _, 0, g => ([], g)
  | i, k + 1, g =>
      let u := nextF g
      let progress : Real := (i : Real) / ((len : Real) - 1)
      let deviation := distance * 0.3 * (u.1 - 0.5)
      let perpX := -dy / distance * deviation
      let perpY := dx / distance * deviation
      let rest := cpGo s dx dy distance len (i + 1) k u.2
      (Point.mk (s.X + dx * progress + perpX) (s.Y + dy * progress + perpY)
        :: rest.1, rest.2)

/-- `generateControlPoints`, mouse.go lines 76-110, including the
zero-distance guard that returns `[start, end]` before any division. -/
noncomputable def generateControlPoints (cfg : MouseMovementConfig) (g : Rng)
    (s e : Point) : List Point × Rng :=
  let complexity := if cfg.bezierComplexity < 2 then 2 else cfg.bezierComplexity
  let dx := e.X - s.X
  let dy := e.Y - s.Y
  let distance := Real.sqrt (dx * dx + dy * dy)
  if distance = 0 then ([s, e], g)
  else
    let mid := cpGo s dx dy distance (complexity + 2) 1 complexity g
    (s :: mid.1 ++ [e], mid.2)

/-- `generateBezierPath`, mouse.go lines 61-74: samples `numSteps + 1`
eased parameter values (the loop is `i := 0; i <= numSteps`). -/
noncomputable def generateBezierPath (cfg : MouseMovementConfig) (g : Rng)
    (s e : Point) (numSteps : Nat) : List Point × Rng :=
  let cp := generateControlPoints cfg g s e
  ((List.range (numSteps + 1)).map
      (fun (i : Nat) =>
        bezierPoint cp.1 (applyEasing ((i : Real) / (numSteps : Real)))),
    cp.2)

/-- The step count of `GeneratePath`, mouse.go lines 38-46:
`clamp(int(dist/3), 30, 200)`. -/
noncomputable def pathNumSteps (s e : Point) : Nat :=
  let dist := Real.sqrt ((e.X - s.X) ^ 2 + (e.Y - s.Y) ^ 2)
  let n₀ : Int := intTrunc (dist / 3)
  let n₁ : Int := if n₀ < 30 then 30 else n₀
  (if n₁ > 200 then 200 else n₁).toNat

/-- `addOvershoot`, mouse.go lines 145-168: extend past the target by
`5 + rand*15` percent of the (last point → target) offset, then append a
fresh 20-step corrective sub-curve minus its first point. -/
noncomputable def addOvershoot (cfg : MouseMovementConfig) (g : Rng)
    (path : List Point) (target : Point) : List Point × Rng :=
  if path.isEmpty then (path, g)
  else
    let lastP := path.getLastD ⟨0, 0⟩
    let dx := target.X - lastP.X
    let dy := target.Y - lastP.Y
    let u := nextF g
    let od := 5 + u.1 * 15
    let ovs := Point.mk (target.X + dx * od / 100) (target.Y + dy * od / 100)
    let corr := generateBezierPath cfg u.2 ovs target 20
    (path ++ ovs :: corr.1.drop 1, corr.2)

/-- The per-point loop of `addMicroMovements`, mouse.go lines 170-192. -/
noncomputable def microGo (len : Nat) : Nat → List Point → Rng → List Point × Rng
  | _, [], g => ([], g)
  | i, p :: rest, g =>
      let jx := nextF g
      let jy := nextF jx.2
      let q := Point.mk (p.X + (jx.1 - 0.5) * 2) (p.Y + (jy.1 - 0.5) * 2)
      if 0 < i ∧ i < len - 1 then
        let u := nextF jy.2
        if u.1 < 0.1 then
          let ax := nextF u.2
          let ay := nextF ax.2
          let extra := Point.mk (p.X + (ax.1 - 0.5) * 0.5) (p.Y + (ay.1 - 0.5) * 0.5)
          let rest' := microGo len (i + 1) rest ay.2
          (q :: extra :: rest'.1, rest'.2)
        else
          let rest' := microGo len (i + 1) rest u.2
          (q :: rest'.1, rest'.2)
      else
        let rest' := microGo len (i + 1) rest jy.2
        (q :: rest'.1, rest'.2)

/-- `addMicroMovements`, mouse.go lines 170-192. -/
noncomputable def addMicroMovements (g : Rng) (path : List Point) :
    List Point × Rng :=
  microGo path.length 0 path g

/-- `GeneratePath`, mouse.go lines 31-59. -/
noncomputable def GeneratePath (cfg : MouseMovementConfig) (g : Rng)
    (s e : Point) : List Point × Rng :=
  if cfg.enabled = false then ([s, e], g)
  else
    let bez := generateBezierPath cfg g s e (pathNumSteps s e)
    let withOv :=
      if cfg.overshootEnabled = true then
        let u := nextF bez.2
        if u.1 < 0.3 then addOvershoot cfg u.2 bez.1 e else (bez.1, u.2)
      else (bez.1, bez.2)
    if cfg.microMovements = true then addMicroMovements withOv.2 withOv.1
    else withOv

/-- Mouse configuration used in claims: enabled, complexity 3, no
overshoot, no micro-movements. -/
noncomputable def mouseCfgPlain : MouseMovementConfig := ⟨true, 1 / 2, 2, false, false, 3⟩

/-- Mouse configuration with the overshoot branch enabled. -/
noncomputable def mouseCfgOvershoot : MouseMovementConfig := ⟨true, 1 / 2, 2, true, false, 3⟩

/-- A concrete oracle whose every `Float64` draw is `1/10` (so the 30%
overshoot chance fires). -/
noncomputable def gTenth : Rng := ⟨fun _ => 1 / 10, fun _ => 0⟩

/-- Advance the `Float64` tape by `n` draws. -/
def advF (g : Rng) (n : Nat) : Rng := ⟨fun k => g.floats (k + n), g.ints⟩

/-! ## TypingController (`GenerateKeystrokes` and helpers)

The enabled path iterates over the runes of the text, occasionally
replacing a keystroke by typo + backspace + correction.  The disabled path
allocates `len(text)` (a BYTE count) zero-valued keystrokes and fills only
the byte offsets at which a rune starts — multi-byte runes therefore leave
zero-valued keystrokes behind. -/

structure TypingConfig where
  enabled : Bool
  minKeyDelay : Int
  maxKeyDelay : Int
  typoChance : Real
  correctionDelay : Int
  thinkPauseChance : Real

structure KeyStroke where
  char : Char
  delay : Int
  isTypo : Bool
  backspace : Bool
deriving DecidableEq

/-- The zero value of the Go `KeyStroke` struct. -/
def zeroKS : KeyStroke := ⟨Char.ofNat 0, 0, false, false⟩

/-- `unicode.IsSpace` restricted to the Latin-1 range (all the code
consults it for). -/
def isSpaceGo (c : Char) : Bool :=
  c == ' ' || c == '\t' || c == '\n' || c == '\x0b' || c == '\x0c' ||
    c == '\r' || c == '\u0085' || c == '\u00A0'

/-- `unicode.IsUpper` restricted to ASCII (the keyboard layout the code
models). -/
def isUpperGo (c : Char) : Bool := 'A' ≤ c && c ≤ 'Z'

/-- The special-character string of `calculateKeyDelay` (mouse.go typing
section); `\x7b\x7d` are the literal curly braces. -/
def specialChars : List Char := "@#$%^&*()_+\x7b\x7d|:<>?".toList

def keyboardRows : List (List Char) :=
  ["qwertyuiop".toList, "asdfghjkl".toList, "zxcvbnm".toList]

/-- `strings.IndexRune` on one keyboard row: index or `-1`. -/
def rowIdx (row : List Char) (c : Char) : Int :=
  if c ∈ row then (row.indexOf c : Int) else -1

/-- `areAdjacent`: both runes on the same row at distance exactly 1. -/
def areAdjacent (prev curr : Char) : Bool :=
  keyboardRows.any fun row =>
    let p := rowIdx row (Char.toLower prev)
    let q := rowIdx row (Char.toLower curr)
    decide (0 ≤ p ∧ 0 ≤ q ∧ (p - q).natAbs = 1)

/-- `isWordBoundary`: previous rune not a space, current rune a space. -/
def isWordBoundary (position : Nat) (text : List Char) : Bool :=
  if position = 0 then false
  else !isSpaceGo (text.getD (position - 1) ' ') && isSpaceGo (text.getD position ' ')

/-- The `keyboardLayout` adjacency map of `generateTypo`; an empty list
means the rune is not a key of the Go map. -/
def keyboardLayout : Char → List Char
  | 'q' => ['w', 'a']
  | 'w' => ['q', 'e', 's', 'a']
  | 'e' => ['w', 'r', 'd', 's']
  | 'r' => ['e', 't', 'f', 'd']
  | 't' => ['r', 'y', 'g', 'f']
  | 'y' => ['t', 'u', 'h', 'g']
  | 'u' => ['y', 'i', 'j', 'h']
  | 'i' => ['u', 'o', 'k', 'j']
  | 'o' => ['i', 'p', 'l', 'k']
  | 'p' => ['o', 'l']
  | 'a' => ['q', 'w', 's', 'z']
  | 's' => ['a', 'w', 'e', 'd', 'x', 'z']
  | 'd' => ['s', 'e', 'r', 'f', 'c', 'x']
  | 'f' => ['d', 'r', 't', 'g', 'v', 'c']
  | 'g' => ['f', 't', 'y', 'h', 'b', 'v']
  | 'h' => ['g', 'y', 'u', 'j', 'n', 'b']
  | 'j' => ['h', 'u', 'i', 'k', 'm', 'n']
  | 'k' => ['j', 'i', 'o', 'l', 'm']
  | 'l' => ['k', 'o', 'p']
  | 'z' => ['a', 's', 'x']
  | 'x' => ['z', 's', 'd', 'c']
  | 'c' => ['x', 'd', 'f', 'v']
  | 'v' => ['c', 'f', 'g', 'b']
  | 'b' => ['v', 'g', 'h', 'n']
  | 'n' => ['b', 'h', 'j', 'm']
  | 'm' => ['n', 'j', 'k']
  | _ => []

/-- `generateTypo`: pick a random adjacent key, preserving case; a rune
outside the map is returned unchanged without consuming randomness. -/
def generateTypo (g : Rng) (c : Char) : Char × Rng :=
  let adjacent := keyboardLayout (Char.toLower c)
  if adjacent.isEmpty then (c, g)
  else
    let n := nextN g adjacent.length
    let typo := adjacent.getD n.1 c
    (if isUpperGo c then Char.toUpper typo else typo, n.2)

/-- `calculateKeyDelay` (nanoseconds): jittered base delay with
space/upper/special/adjacency factors. -/
noncomputable def calculateKeyDelay (cfg : TypingConfig) (g : Rng) (c : Char)
    (position : Nat) (text : List Char) : Int × Rng :=
  let n := nextN g (cfg.maxKeyDelay - cfg.minKeyDelay).toNat
  let base₀ : Int := cfg.minKeyDelay + n.1
  let base₁ := if isSpaceGo c then intTrunc ((base₀ : Real) * 0.7) else base₀
  let base₂ := if isUpperGo c then intTrunc ((base₁ : Real) * 1.3) else base₁
  let base₃ := if c ∈ specialChars then intTrunc ((base₂ : Real) * 1.5) else base₂
  let base₄ :=
    if 0 < position ∧ areAdjacent (text.getD (position - 1) ' ') c then
      intTrunc ((base₃ : Real) * 0.85)
    else base₃
  let u := nextF n.2
  let variation : Real := (base₄ : Real) * 0.2 * (u.1 * 2 - 1)
  (base₄ + intTrunc variation, u.2)

/-- The enabled loop of `GenerateKeystrokes`: for each rune draw the delay,
the think-pause chance (plus pause length at a word boundary), and the typo
chance; a typo emits typo + backspace + corrected keystrokes. -/
noncomputable def genKeystrokes (cfg : TypingConfig) (text : List Char) :
    Nat → List Char → Rng → List KeyStroke × Rng
  | _, [], g => ([], g)
  | i, c :: rest, g =>
      let d := calculateKeyDelay cfg g c i text
      let u := nextF d.2
      let dl :=
        if u.1 < cfg.thinkPauseChance then
          if isWordBoundary i text then
            let n := nextN u.2 1500
            (d.1 + ((500 + n.1 : Nat) : Int) * 1000000, n.2)
          else (d.1, u.2)
        else (d.1, u.2)
      let v := nextF dl.2
      if v.1 < cfg.typoChance ∧ ¬isSpaceGo c then
        let ty := generateTypo v.2 c
        let d₂ := calculateKeyDelay cfg ty.2 c i text
        let rest' := genKeystrokes cfg text (i + 1) rest d₂.2
        (KeyStroke.mk ty.1 dl.1 true false ::
          KeyStroke.mk (Char.ofNat 0) cfg.correctionDelay false true ::
            KeyStroke.mk c d₂.1 false false :: rest'.1, rest'.2)
      else
        let rest' := genKeystrokes cfg text (i + 1) rest v.2
        (KeyStroke.mk c dl.1 false false :: rest'.1, rest'.2)

/-- UTF-8 byte length of one rune. -/
def utf8Len (c : Char) : Nat :=
  if c.toNat < 0x80 then 1
  else if c.toNat < 0x800 then 2
  else if c.toNat < 0x10000 then 3
  else 4

/-- `GenerateKeystrokes`.  The disabled branch reproduces the Go slice of
length `len(text)` (BYTES): the rune at each starting byte offset, zero
values at continuation offsets. -/
noncomputable def GenerateKeystrokes (cfg : TypingConfig) (g : Rng)
    (text : List Char) : List KeyStroke × Rng :=
  if cfg.enabled = false then
    (text.foldr
      (fun c acc =>
        KeyStroke.mk c 0 false false :: (List.replicate (utf8Len c - 1) zeroKS ++ acc))
      [], g)
  else genKeystrokes cfg text 0 text g

/-- One replay step of the claim: backspace removes the previously emitted
character, anything else appends its character. -/
def replayStep (acc : List Char) (k : KeyStroke) : List Char :=
  if k.backspace then acc.dropLast else acc ++ [k.char]

/-- Replaying a keystroke sequence as the claim describes. -/
def replayKeystrokes (ks : List KeyStroke) : List Char :=
  ks.foldl replayStep []

/-! ## TimingController (`pkg/stealth/timing.go`)

`ExponentialBackoff` doubles a base delay per attempt (as a 64-bit shift),
clamps at `maxDelay`, and adds up to +30% random jitter. -/

/-- `ExponentialBackoff`, timing.go lines 98-107 (nanoseconds, with 64-bit
wraparound where the Go shift/product/sum can overflow `int64`). -/
noncomputable def ExponentialBackoff (g : Rng) (attempt : Nat)
    (base maxDelay : Int) : Int × Rng :=
  let shift := wrap64 (2 ^ attempt)
  let delay₀ := wrap64 (base * shift)
  let delay₁ := if delay₀ > maxDelay then maxDelay else delay₀
  let u := nextF g
  let jitter := intTrunc ((delay₁ : Real) * 0.3 * u.1)
  (wrap64 (delay₁ + jitter), u.2)

/-- A typing configuration with stealth typing disabled. -/
noncomputable def cfgTypingOff : TypingConfig :=
  ⟨false, 50000000, 150000000, 1 / 10, 300000000, 1 / 20⟩

/-- A typing configuration with stealth typing enabled. -/
noncomputable def cfgTypingOn : TypingConfig :=
  ⟨true, 50000000, 150000000, 1 / 10, 300000000, 1 / 20⟩

/-- An oracle whose first `Float64` draw is `99/100` and all later draws
are `0`, exhibiting a large jitter followed by none. -/
noncomputable def gBack : Rng := ⟨fun k => if k = 0 then 99 / 100 else 0, fun _ => 0⟩

theorem incrementCount_iterate (t : GoTime) (n : Nat) :
    incrementCount^[n] ⟨0, 0, t⟩ = ⟨(n : Int), (n : Int), t⟩ := by
  induction n with
  | zero => simp [Function.iterate_zero]
  | succ k ih =>
      rw [Function.iterate_succ_apply', ih]
      simp only [incrementCount]
      congr 1

theorem checkAndResetCounts_frame (now : GoTime) (c : ConnState)
    (hd : now.day = c.lastReset.day) (hh : now.hour = c.lastReset.hour) :
    checkAndResetCounts now c = c := by
  unfold checkAndResetCounts
  simp [hd, hh]

/-- C3: starting from a fresh tracker last reset at `t0`, after exactly
`dailyLimit` calls to `incrementCount` within the same calendar day,
`canSendConnection` returns `false` at any time `t1` of that day; at a time
`t2` on a different day-of-month, `canSendConnection` returns `true` and
both counters read `0`. -/
theorem daily_limit_blocks_then_rollover_resets
    (cfg : RateLimitConfig) (t0 t1 t2 : GoTime)
    (hdl : 0 < cfg.dailyConnectionLimit) (hhl : 0 < cfg.hourlyConnectionLimit)
    (hsame : t1.day = t0.day) (hroll : t2.day ≠ t0.day) :
    (canSendConnection cfg t1
        (incrementCount^[cfg.dailyConnectionLimit.toNat] ⟨0, 0, t0⟩)).1 = false ∧
      (canSendConnection cfg t2 (canSendConnection cfg t1
        (incrementCount^[cfg.dailyConnectionLimit.toNat] ⟨0, 0, t0⟩)).2).1 = true ∧
      (canSendConnection cfg t2 (canSendConnection cfg t1
        (incrementCount^[cfg.dailyConnectionLimit.toNat] ⟨0, 0, t0⟩)).2).2.dailyCount = 0 ∧
      (canSendConnection cfg t2 (canSendConnection cfg t1
        (incrementCount^[cfg.dailyConnectionLimit.toNat] ⟨0, 0, t0⟩)).2).2.hourlyCount = 0 := by
  rw [incrementCount_iterate]
  have hL : ((cfg.dailyConnectionLimit.toNat : Int)) = cfg.dailyConnectionLimit :=
    Int.toNat_of_nonneg hdl.le
  have hroll1 : t2.day ≠ t1.day := by rw [hsame]; exact hroll
  by_cases hB : t1.hour = t0.hour <;>
    simp [canSendConnection, checkAndResetCounts, hsame, hB, hroll, hroll1, hL,
      le_refl, not_lt.mpr hdl.le, not_le.mpr hdl, not_le.mpr hhl]

/-- C3 witness: the theorem instantiated at limits `3`/`2`, with the limit
reached on May 1 and queried again on May 2. -/
theorem daily_limit_blocks_then_rollover_resets_witness :
    (0 : Int) < 3 ∧ (0 : Int) < 2 ∧
      (GoTime.mk 2024 5 1 23).day = (GoTime.mk 2024 5 1 9).day ∧
      (GoTime.mk 2024 5 2 0).day ≠ (GoTime.mk 2024 5 1 9).day ∧
      ((canSendConnection ⟨3, 2⟩ ⟨2024, 5, 1, 23⟩
        (incrementCount^[(3 : Int).toNat] ⟨0, 0, ⟨2024, 5, 1, 9⟩⟩)).1 = false ∧
      (canSendConnection ⟨3, 2⟩ ⟨2024, 5, 2, 0⟩ (canSendConnection ⟨3, 2⟩ ⟨2024, 5, 1, 23⟩
        (incrementCount^[(3 : Int).toNat] ⟨0, 0, ⟨2024, 5, 1, 9⟩⟩)).2).1 = true ∧
      (canSendConnection ⟨3, 2⟩ ⟨2024, 5, 2, 0⟩ (canSendConnection ⟨3, 2⟩ ⟨2024, 5, 1, 23⟩
        (incrementCount^[(3 : Int).toNat] ⟨0, 0, ⟨2024, 5, 1, 9⟩⟩)).2).2.dailyCount = 0 ∧
      (canSendConnection ⟨3, 2⟩ ⟨2024, 5, 2, 0⟩ (canSendConnection ⟨3, 2⟩ ⟨2024, 5, 1, 23⟩
        (incrementCount^[(3 : Int).toNat] ⟨0, 0, ⟨2024, 5, 1, 9⟩⟩)).2).2.hourlyCount = 0) :=
  ⟨by norm_num, by norm_num, rfl, by decide,
    daily_limit_blocks_then_rollover_resets ⟨3, 2⟩ ⟨2024, 5, 1, 9⟩ ⟨2024, 5, 1, 23⟩
      ⟨2024, 5, 2, 0⟩ (by norm_num) (by norm_num) rfl (by decide)⟩

/-- C4 counterexample: `GetRemainingQuota` called one calendar day after the
last reset zeroes the counters and moves `lastReset`, so it does mutate the
tracker, refuting the claim that the state is always identical after the
call. -/
theorem quota_read_mutates_counterexample :
    (GetRemainingQuota ⟨10, 5⟩ ⟨2024, 1, 16, 10⟩
        ⟨5, 2, ⟨2024, 1, 15, 10⟩⟩).2 ≠ ⟨5, 2, ⟨2024, 1, 15, 10⟩⟩ := by
  decide

/-- C4 amended: `GetRemainingQuota` leaves the tracker unchanged whenever
the current time shares the last reset's day-of-month and hour-of-day
(otherwise it applies the `checkAndResetCounts` resets), and it reports the
configured limits minus the (reset-adjusted) counters. -/
theorem quota_read_pure_same_day_hour (cfg : RateLimitConfig) (now : GoTime)
    (c : ConnState) (hd : now.day = c.lastReset.day)
    (hh : now.hour = c.lastReset.hour) :
    (GetRemainingQuota cfg now c).2 = c ∧
      (GetRemainingQuota cfg now c).1 =
        (cfg.dailyConnectionLimit - c.dailyCount,
          cfg.hourlyConnectionLimit - c.hourlyCount) := by
  unfold GetRemainingQuota
  rw [checkAndResetCounts_frame now c hd hh]
  exact ⟨rfl, rfl⟩

/-- C4 witness: the amended theorem at a concrete same-day, same-hour
query. -/
theorem quota_read_pure_same_day_hour_witness :
    (GoTime.mk 2024 1 15 10).day = (GoTime.mk 2024 1 15 10).day ∧
      (GoTime.mk 2024 1 15 10).hour = (GoTime.mk 2024 1 15 10).hour ∧
      ((GetRemainingQuota ⟨10, 5⟩ ⟨2024, 1, 15, 10⟩
          ⟨5, 2, ⟨2024, 1, 15, 10⟩⟩).2 = ⟨5, 2, ⟨2024, 1, 15, 10⟩⟩ ∧
        (GetRemainingQuota ⟨10, 5⟩ ⟨2024, 1, 15, 10⟩
          ⟨5, 2, ⟨2024, 1, 15, 10⟩⟩).1 = (10 - 5, 5 - 2)) :=
  ⟨rfl, rfl,
    quota_read_pure_same_day_hour ⟨10, 5⟩ ⟨2024, 1, 15, 10⟩
      ⟨5, 2, ⟨2024, 1, 15, 10⟩⟩ rfl rfl⟩

/-- C10: the reset decision in `checkAndResetCounts` compares only
day-of-month and hour-of-day, so any current time sharing both with the
last reset — including times exactly one month or one year apart — leaves
the counters and the `lastReset` timestamp unchanged. -/
theorem reset_depends_only_on_day_and_hour (now : GoTime) (c : ConnState)
    (hd : now.day = c.lastReset.day) (hh : now.hour = c.lastReset.hour) :
    checkAndResetCounts now c = c :=
  checkAndResetCounts_frame now c hd hh

/-- C10 witness: a current time exactly one calendar month after the last
reset (same day-of-month, same hour) leaves a tracker with a nonzero daily
count completely unchanged. -/
theorem reset_depends_only_on_day_and_hour_witness :
    (GoTime.mk 2024 2 15 10).day = (GoTime.mk 2024 1 15 10).day ∧
      (GoTime.mk 2024 2 15 10).hour = (GoTime.mk 2024 1 15 10).hour ∧
      checkAndResetCounts ⟨2024, 2, 15, 10⟩ ⟨7, 3, ⟨2024, 1, 15, 10⟩⟩ =
        ⟨7, 3, ⟨2024, 1, 15, 10⟩⟩ :=
  ⟨rfl, rfl,
    reset_depends_only_on_day_and_hour ⟨2024, 2, 15, 10⟩
      ⟨7, 3, ⟨2024, 1, 15, 10⟩⟩ rfl rfl⟩

theorem downSum_nil : downSum [] = 0 := rfl

theorem downSum_cons (a : ScrollAction) (l : List ScrollAction) :
    downSum (a :: l) = downDelta a + downSum l := by
  simp [downSum]

theorem downSum_append (l₁ l₂ : List ScrollAction) :
    downSum (l₁ ++ l₂) = downSum l₁ + downSum l₂ := by
  simp [downSum]

theorem upSum_nil : upSum [] = 0 := rfl

theorem upSum_cons (a : ScrollAction) (l : List ScrollAction) :
    upSum (a :: l) = upDelta a + upSum l := by
  simp [upSum]

theorem upSum_append (l₁ l₂ : List ScrollAction) :
    upSum (l₁ ++ l₂) = upSum l₁ + upSum l₂ := by
  simp [upSum]

theorem signedDelta_eq (a : ScrollAction) :
    signedDelta a = downDelta a - upDelta a := by
  unfold signedDelta downDelta upDelta
  split_ifs with h₁ h₂ <;> simp_all

theorem signedSum_eq (l : List ScrollAction) :
    signedSum l = downSum l - upSum l := by
  induction l with
  | nil => rfl
  | cons a l ih =>
      simp only [signedSum, List.map_cons, List.sum_cons] at *
      rw [downSum_cons, upSum_cons, ih, signedDelta_eq]
      ring

theorem scrollLoop_nonpos (cfg : ScrollingConfig) (g : Rng) (r : Int)
    (h : r ≤ 0) : scrollLoop cfg g r = ([], g) := by
  rw [scrollLoop, dif_pos h]

theorem calcAmount_ge (g : Rng) (r : Int) (s : Nat) :
    10 ≤ (calculateScrollAmount g r s).1 := by
  simp only [calculateScrollAmount]
  split_ifs <;> omega

theorem calcAmount_le (g : Rng) (r : Int) (s : Nat) :
    (calculateScrollAmount g r s).1 ≤ max r 10 := by
  simp only [calculateScrollAmount]
  split_ifs <;> omega

theorem scrollBackPart_downSum (cfg : ScrollingConfig) (g : Rng)
    (r A : Int) : downSum (scrollBackPart cfg g r A).1 = 0 := by
  simp only [scrollBackPart]
  split_ifs <;> simp [downSum, downDelta]

theorem pausePart_downSum (cfg : ScrollingConfig) (g : Rng) :
    downSum (pausePart cfg g).1 = 0 := by
  simp only [pausePart]
  split_ifs <;> simp [downSum, downDelta]

theorem scrollLoop_step (cfg : ScrollingConfig) (g : Rng) (r : Int)
    (h0 : 0 < r) :
    ∃ (A d : Int) (back pause : List ScrollAction) (g' : Rng),
      (scrollLoop cfg g r).1 =
        back ++ ScrollAction.mk A d "down" :: pause ++ (scrollLoop cfg g' (r - A)).1 ∧
      10 ≤ A ∧ A ≤ max r 10 ∧ downSum back = 0 ∧ downSum pause = 0 := by
  rw [scrollLoop, dif_neg (not_le.mpr h0)]
  exact ⟨_, _, _, _, _, rfl, calcAmount_ge _ _ _, calcAmount_le _ _ _,
    scrollBackPart_downSum _ _ _ _, pausePart_downSum _ _⟩

theorem scrollLoop_downSum (cfg : ScrollingConfig) :
    ∀ (n : Nat) (r : Int) (g : Rng), r.toNat ≤ n → 0 < r →
      r ≤ downSum (scrollLoop cfg g r).1 ∧
        downSum (scrollLoop cfg g r).1 ≤ r + 9 := by
  intro n
  induction n with
  | zero => intro r g hrn h0; omega
  | succ m ih =>
      intro r g hrn h0
      obtain ⟨A, d, back, pause, g', heq, hA10, hAle, hb, hp⟩ :=
        scrollLoop_step cfg g r h0
      rw [heq]
      have hdown : downDelta (ScrollAction.mk A d "down") = A := by
        simp [downDelta]
      simp only [downSum_append, downSum_cons, hb, hp, hdown]
      by_cases hrest : r - A ≤ 0
      · rw [scrollLoop_nonpos cfg g' _ hrest, downSum_nil]
        omega
      · have := ih (r - A) g' (by omega) (by omega)
        omega

/-- C1 amended: for every positive total distance `D`, the forward
("down") delta sum of `GenerateScrollSequence D` lies between `D` and
`D + 9` (the 10-pixel minimum chunk can overshoot the final residual by up
to 9), and the signed sum is the forward sum minus the sum of the
uncompensated reverse ("up") scroll-back deltas. -/
theorem scroll_sequence_delta_sums (cfg : ScrollingConfig) (g : Rng)
    (D : Int) (hD : 0 < D) :
    D ≤ downSum (GenerateScrollSequence cfg g D).1 ∧
      downSum (GenerateScrollSequence cfg g D).1 ≤ D + 9 ∧
      signedSum (GenerateScrollSequence cfg g D).1 =
        downSum (GenerateScrollSequence cfg g D).1 -
          upSum (GenerateScrollSequence cfg g D).1 := by
  refine ⟨?_, ?_, signedSum_eq _⟩ <;>
  · unfold GenerateScrollSequence
    split_ifs with h
    · simp [downSum, downDelta]
    · have := scrollLoop_downSum cfg D.toNat D g le_rfl hD
      omega

/-- C1 witness: the amended theorem applied at distance `7`. -/
theorem scroll_sequence_delta_sums_witness :
    (0 : Int) < 7 ∧
      (7 ≤ downSum (GenerateScrollSequence ⟨true, 50, 200, 0.1, 0.15, false⟩
          ⟨fun _ => 1 / 2, fun _ => 0⟩ 7).1 ∧
        downSum (GenerateScrollSequence ⟨true, 50, 200, 0.1, 0.15, false⟩
          ⟨fun _ => 1 / 2, fun _ => 0⟩ 7).1 ≤ 7 + 9 ∧
        signedSum (GenerateScrollSequence ⟨true, 50, 200, 0.1, 0.15, false⟩
          ⟨fun _ => 1 / 2, fun _ => 0⟩ 7).1 =
          downSum (GenerateScrollSequence ⟨true, 50, 200, 0.1, 0.15, false⟩
            ⟨fun _ => 1 / 2, fun _ => 0⟩ 7).1 -
            upSum (GenerateScrollSequence ⟨true, 50, 200, 0.1, 0.15, false⟩
              ⟨fun _ => 1 / 2, fun _ => 0⟩ 7).1) :=
  ⟨by norm_num,
    scroll_sequence_delta_sums ⟨true, 50, 200, 0.1, 0.15, false⟩
      ⟨fun _ => 1 / 2, fun _ => 0⟩ 7 (by norm_num)⟩

theorem nextF_gHalf : nextF gHalf = (1 / 2, gHalf) := rfl

theorem nextN_gHalf (n : Nat) : nextN gHalf n = (0, gHalf) := by
  simp [nextN, gHalf]

theorem calcAmount_gHalf :
    calculateScrollAmount gHalf 5 10 = (10, gHalf) := by
  have h10 : intTrunc (10 : Real) = 10 := by
    rw [show (10 : Real) = ((10 : Int) : Real) by norm_num]
    exact intTrunc_intCast 10
  simp only [calculateScrollAmount, nextN_gHalf, nextF_gHalf]
  norm_num [h10]

/-- C1 counterexample: with scrolling enabled, speed range fixed at 10 and
both chances zero, requesting distance 5 yields the single forward chunk 10
(the residual 5 is clamped up to the 10-pixel minimum), so the signed delta
sum is 10, not the requested 5. -/
theorem scroll_sum_counterexample :
    signedSum (GenerateScrollSequence ⟨true, 10, 10, 0, 0, false⟩ gHalf 5).1 = 10 ∧
      (10 : Int) ≠ 5 := by
  have hBack : scrollBackPart ⟨true, 10, 10, 0, 0, false⟩ gHalf 5 10 = ([], gHalf) := by
    simp only [scrollBackPart]
    rw [if_neg (by norm_num)]
  have hDur : calculateScrollDuration ⟨true, 10, 10, 0, 0, false⟩ gHalf 10 =
      (50000000, gHalf) := by
    simp only [calculateScrollDuration, nextN_gHalf]
    norm_num
  have hPause : pausePart ⟨true, 10, 10, 0, 0, false⟩ gHalf = ([], gHalf) := by
    simp only [pausePart, nextF_gHalf]
    norm_num
  have hLoop2 : scrollLoop ⟨true, 10, 10, 0, 0, false⟩ gHalf (-5) = ([], gHalf) :=
    scrollLoop_nonpos _ _ _ (by norm_num)
  have hLoop : scrollLoop ⟨true, 10, 10, 0, 0, false⟩ gHalf 5 =
      ([ScrollAction.mk 10 50000000 "down"], gHalf) := by
    rw [scrollLoop, dif_neg (by norm_num : ¬(5 : Int) ≤ 0)]
    simp only [nextN_gHalf]
    norm_num [calcAmount_gHalf, hBack, hDur, hPause, hLoop2]
  have hEnabled : (GenerateScrollSequence ⟨true, 10, 10, 0, 0, false⟩ gHalf 5).1 =
      [ScrollAction.mk 10 50000000 "down"] := by
    rw [GenerateScrollSequence, if_neg (by simp), hLoop]
  rw [hEnabled]
  refine ⟨?_, by norm_num⟩
  simp [signedSum, signedDelta]

theorem smoothGo_length (td : Int) (n : Nat) :
    ∀ (k i : Nat) (rem : Int) (g : Rng), (smoothGo td n i k rem g).1.length = k
  | 0, _, _, _ => rfl
  | 1, _, _, _ => rfl
  | (k + 2), i, rem, g => by
      simp only [smoothGo, List.length_cons]
      rw [smoothGo_length td n (k + 1) (i + 1)]

theorem smoothGo_sum (td : Int) (n : Nat) :
    ∀ (k i : Nat) (rem : Int) (g : Rng), 1 ≤ k →
      (smoothGo td n i k rem g).1.sum = rem
  | 0, _, _, _, h => absurd h (by omega)
  | 1, _, rem, _, _ => by simp [smoothGo]
  | (k + 2), i, rem, g, _ => by
      simp only [smoothGo, List.sum_cons]
      rw [smoothGo_sum td n (k + 1) (i + 1) _ _ (by omega)]
      ring

/-- C9: with smooth scrolling enabled, `GenerateSmoothScrollSteps` emits
between 5 and 50 sub-steps inclusive for every total delta (positive,
negative or zero), and the sub-steps sum exactly to the total delta, the
final sub-step being forced to the residual. -/
theorem smooth_steps_count_and_sum (cfg : ScrollingConfig) (g : Rng)
    (td : Int) (h : cfg.smoothScrolling = true) :
    5 ≤ (GenerateSmoothScrollSteps cfg g td).1.length ∧
      (GenerateSmoothScrollSteps cfg g td).1.length ≤ 50 ∧
      (GenerateSmoothScrollSteps cfg g td).1.sum = td := by
  have h0 : 0 ≤ intTrunc (|(td : Real)| / 20) :=
    intTrunc_nonneg (by positivity)
  unfold GenerateSmoothScrollSteps
  rw [if_neg (by simp [h])]
  set n₀ := intTrunc (|(td : Real)| / 20) with hn₀
  set n₁ : Int := if n₀ < 5 then 5 else n₀ with hn₁
  set n₂ : Int := if n₁ > 50 then 50 else n₁ with hn₂
  have hb : 5 ≤ n₂.toNat ∧ n₂.toNat ≤ 50 := by
    rw [hn₂, hn₁]
    split_ifs <;> omega
  exact ⟨by rw [smoothGo_length]; exact hb.1,
    by rw [smoothGo_length]; exact hb.2,
    smoothGo_sum td n₂.toNat n₂.toNat 0 td g (by omega)⟩

/-- C9 witness: the theorem applied at a smooth-scrolling configuration and
total delta 160. -/
theorem smooth_steps_count_and_sum_witness :
    (ScrollingConfig.mk true 50 200 (1 / 10) (3 / 20) true).smoothScrolling = true ∧
      (5 ≤ (GenerateSmoothScrollSteps ⟨true, 50, 200, 1 / 10, 3 / 20, true⟩
          ⟨fun _ => 1 / 2, fun _ => 0⟩ 160).1.length ∧
        (GenerateSmoothScrollSteps ⟨true, 50, 200, 1 / 10, 3 / 20, true⟩
          ⟨fun _ => 1 / 2, fun _ => 0⟩ 160).1.length ≤ 50 ∧
        (GenerateSmoothScrollSteps ⟨true, 50, 200, 1 / 10, 3 / 20, true⟩
          ⟨fun _ => 1 / 2, fun _ => 0⟩ 160).1.sum = 160) :=
  ⟨rfl, smooth_steps_count_and_sum ⟨true, 50, 200, 1 / 10, 3 / 20, true⟩
    ⟨fun _ => 1 / 2, fun _ => 0⟩ 160 rfl⟩

theorem binomial_self (n : Nat) : binomial n n = 1 := by
  simp only [binomial]
  rw [show (if n > n - n then n - n else n) = 0 by split_ifs <;> omega]
  rfl

theorem binomial_zero_right (n : Nat) : binomial n 0 = 1 := by
  simp only [binomial]
  rw [show (if 0 > n - 0 then n - 0 else 0) = 0 by split_ifs <;> omega]
  rfl

theorem bernstein_zero_zero (n : Nat) : bernstein n 0 0 = 1 := by
  simp [bernstein, binomial_zero_right]

theorem bernstein_at_zero (n i : Nat) (h : i ≠ 0) : bernstein n i 0 = 0 := by
  simp [bernstein, zero_pow h]

theorem bernstein_self_one (n : Nat) : bernstein n n 1 = 1 := by
  simp [bernstein, binomial_self, Nat.sub_self]

theorem bernstein_lt_one (n i : Nat) (h : i < n) : bernstein n i 1 = 0 := by
  have hni : n - i ≠ 0 := by omega
  simp [bernstein, zero_pow hni]

theorem bezierSumX_tail_at_zero :
    ∀ (ps : List Point) (i n : Nat), i ≠ 0 → bezierSumX ps i n 0 = 0
  | [], _, _, _ => rfl
  | p :: ps, i, n, h => by
      rw [bezierSumX, bernstein_at_zero n i h,
        bezierSumX_tail_at_zero ps (i + 1) n (by omega)]
      ring

theorem bezierSumY_tail_at_zero :
    ∀ (ps : List Point) (i n : Nat), i ≠ 0 → bezierSumY ps i n 0 = 0
  | [], _, _, _ => rfl
  | p :: ps, i, n, h => by
      rw [bezierSumY, bernstein_at_zero n i h,
        bezierSumY_tail_at_zero ps (i + 1) n (by omega)]
      ring

theorem bezierSumX_head_at_zero (p : Point) (ps : List Point) (n : Nat) :
    bezierSumX (p :: ps) 0 n 0 = p.X := by
  rw [bezierSumX, bernstein_zero_zero, bezierSumX_tail_at_zero ps 1 n (by omega)]
  ring

theorem bezierSumY_head_at_zero (p : Point) (ps : List Point) (n : Nat) :
    bezierSumY (p :: ps) 0 n 0 = p.Y := by
  rw [bezierSumY, bernstein_zero_zero, bezierSumY_tail_at_zero ps 1 n (by omega)]
  ring

theorem bezierSumX_concat_at_one :
    ∀ (ps : List Point) (p : Point) (i n : Nat), i + ps.length = n →
      bezierSumX (ps ++ [p]) i n 1 = p.X
  | [], p, i, n, h => by
      have hin : i = n := by simpa using h
      subst hin
      rw [List.nil_append, bezierSumX, bernstein_self_one]
      show p.X * 1 + bezierSumX [] (i + 1) i 1 = p.X
      rw [bezierSumX]
      ring
  | q :: ps, p, i, n, h => by
      have hi : i < n := by
        simp only [List.length_cons] at h
        omega
      rw [List.cons_append, bezierSumX, bernstein_lt_one n i hi,
        bezierSumX_concat_at_one ps p (i + 1) n
          (by simp only [List.length_cons] at h; omega)]
      ring

theorem bezierSumY_concat_at_one :
    ∀ (ps : List Point) (p : Point) (i n : Nat), i + ps.length = n →
      bezierSumY (ps ++ [p]) i n 1 = p.Y
  | [], p, i, n, h => by
      have hin : i = n := by simpa using h
      subst hin
      rw [List.nil_append, bezierSumY, bernstein_self_one]
      show p.Y * 1 + bezierSumY [] (i + 1) i 1 = p.Y
      rw [bezierSumY]
      ring
  | q :: ps, p, i, n, h => by
      have hi : i < n := by
        simp only [List.length_cons] at h
        omega
      rw [List.cons_append, bezierSumY, bernstein_lt_one n i hi,
        bezierSumY_concat_at_one ps p (i + 1) n
          (by simp only [List.length_cons] at h; omega)]
      ring

theorem generateControlPoints_shape (cfg : MouseMovementConfig) (g : Rng)
    (s e : Point) :
    ∃ mid g', generateControlPoints cfg g s e = (s :: mid ++ [e], g') := by
  simp only [generateControlPoints]
  split_ifs <;> first
    | exact ⟨[], g, rfl⟩
    | exact ⟨_, _, rfl⟩

theorem bezierPoint_shape_zero (s e : Point) (mid : List Point) :
    bezierPoint (s :: mid ++ [e]) 0 = s :=
  Point.ext (bezierSumX_head_at_zero s (mid ++ [e]) _)
    (bezierSumY_head_at_zero s (mid ++ [e]) _)

theorem bezierPoint_shape_one (s e : Point) (mid : List Point) :
    bezierPoint (s :: mid ++ [e]) 1 = e := by
  have hlen : (s :: mid ++ [e]).length - 1 = mid.length + 1 := by simp
  have hx := bezierSumX_concat_at_one (s :: mid) e 0 (mid.length + 1) (by simp)
  have hy := bezierSumY_concat_at_one (s :: mid) e 0 (mid.length + 1) (by simp)
  rw [List.cons_append] at hx hy
  exact Point.ext (by rw [bezierPoint, hlen] at *; exact hx)
    (by rw [bezierPoint, hlen] at *; exact hy)

theorem applyEasing_zero : applyEasing 0 = 0 := by
  simp [applyEasing]

theorem applyEasing_one : applyEasing 1 = 1 := by
  norm_num [applyEasing]

theorem generateBezierPath_length (cfg : MouseMovementConfig) (g : Rng)
    (s e : Point) (n : Nat) :
    (generateBezierPath cfg g s e n).1.length = n + 1 := by
  simp only [generateBezierPath]
  rw [List.length_map, List.length_range]

theorem generateBezierPath_head (cfg : MouseMovementConfig) (g : Rng)
    (s e : Point) (n : Nat) :
    (generateBezierPath cfg g s e n).1.head? = some s := by
  obtain ⟨mid, g', hcp⟩ := generateControlPoints_shape cfg g s e
  simp only [generateBezierPath, hcp]
  rw [List.head?_map, List.range_succ_eq_map, List.head?_cons, Option.map_some',
    Nat.cast_zero, zero_div, applyEasing_zero, bezierPoint_shape_zero]

theorem generateBezierPath_getLast (cfg : MouseMovementConfig) (g : Rng)
    (s e : Point) (n : Nat) (hn : n ≠ 0) :
    (generateBezierPath cfg g s e n).1.getLast? = some e := by
  obtain ⟨mid, g', hcp⟩ := generateControlPoints_shape cfg g s e
  simp only [generateBezierPath, hcp]
  rw [List.range_succ, List.map_append, List.map_cons, List.map_nil,
    List.getLast?_concat]
  rw [div_self (by exact_mod_cast hn), applyEasing_one, bezierPoint_shape_one]

theorem bezierPoint_pair_const (c : Point) (t : Real) : bezierPoint [c, c] t = c := by
  have h10 : binomial 1 0 = 1 := rfl
  have h11 : binomial 1 1 = 1 := rfl
  refine Point.ext ?_ ?_ <;>
  · show _ * bernstein 1 0 t + (_ * bernstein 1 1 t + 0) = _
    simp only [bernstein, h10, h11, Nat.cast_one, pow_zero, pow_one,
      Nat.sub_self, Nat.sub_zero]
    ring

theorem generateControlPoints_self (cfg : MouseMovementConfig) (g : Rng)
    (s : Point) : generateControlPoints cfg g s s = ([s, s], g) := by
  simp only [generateControlPoints]
  rw [if_pos (by simp [sub_self])]

theorem generateBezierPath_self_const (cfg : MouseMovementConfig) (g : Rng)
    (s : Point) (n : Nat) :
    ∀ p ∈ (generateBezierPath cfg g s s n).1, p = s := by
  intro p hp
  simp only [generateBezierPath, generateControlPoints_self, List.mem_map] at hp
  obtain ⟨i, _, rfl⟩ := hp
  exact bezierPoint_pair_const s _

theorem intTrunc_zero : intTrunc 0 = 0 := by
  simp [intTrunc]

theorem pathNumSteps_self (s : Point) : pathNumSteps s s = 30 := by
  simp only [pathNumSteps, sub_self]
  norm_num [Real.sqrt_zero, intTrunc_zero]
  rfl

theorem pathNumSteps_ge (s e : Point) : 30 ≤ pathNumSteps s e := by
  simp only [pathNumSteps]
  split_ifs <;> omega

theorem getLast?_cons_const (c : Point) :
    ∀ (l : List Point), (∀ p ∈ l, p = c) → (c :: l).getLast? = some c
  | [], _ => rfl
  | q :: l, h => by
      rw [h q (by simp), List.getLast?_cons_cons]
      exact getLast?_cons_const c l (fun p hp => h p (by simp [hp]))

theorem addOvershoot_const (cfg : MouseMovementConfig) (g : Rng)
    (path : List Point) (c : Point) (hpath : ∀ p ∈ path, p = c) :
    ∀ p ∈ (addOvershoot cfg g path c).1, p = c := by
  simp only [addOvershoot]
  split_ifs with h
  · exact hpath
  · have hne : path ≠ [] := by simpa [List.isEmpty_iff] using h
    have hlast : path.getLastD ⟨0, 0⟩ = c := by
      rw [List.getLastD_eq_getLast?, List.getLast?_eq_getLast path hne]
      exact hpath _ (List.getLast_mem hne)
    have main : ∀ (ovsT : Point) (rest : List Point), ovsT = c →
        (∀ q ∈ rest, q = c) → ∀ p ∈ path ++ ovsT :: rest, p = c := by
      intro ovsT rest hovs hrest p hp
      rcases List.mem_append.mp hp with h₁ | h₂
      · exact hpath p h₁
      · rcases List.mem_cons.mp h₂ with rfl | h₃
        · exact hovs
        · exact hrest p h₃
    intro p hp
    refine main _ _ ?_ ?_ p hp
    · rw [hlast]
      refine Point.ext ?_ ?_ <;> dsimp <;> ring
    · intro q hq
      have hq' := List.drop_subset 1 _ hq
      rw [hlast] at hq'
      have hovs : Point.mk (c.X + (c.X - c.X) * (5 + (nextF g).1 * 15) / 100)
          (c.Y + (c.Y - c.Y) * (5 + (nextF g).1 * 15) / 100) = c := by
        refine Point.ext ?_ ?_ <;> dsimp <;> ring
      rw [hovs] at hq'
      exact generateBezierPath_self_const cfg (nextF g).2 c 20 q hq'

theorem GeneratePath_self_const (cfg : MouseMovementConfig) (g : Rng)
    (s : Point) (hE : cfg.enabled = true) (hM : cfg.microMovements = false) :
    ∀ p ∈ (GeneratePath cfg g s s).1, p = s := by
  simp only [GeneratePath, hE, hM]
  norm_num
  split_ifs with h₁ h₂
  · exact addOvershoot_const cfg _ _ s (generateBezierPath_self_const cfg g s _)
  · exact generateBezierPath_self_const cfg g s _
  · exact generateBezierPath_self_const cfg g s _

theorem GeneratePath_self_length (cfg : MouseMovementConfig) (g : Rng)
    (s : Point) (hE : cfg.enabled = true) (hO : cfg.overshootEnabled = false)
    (hM : cfg.microMovements = false) :
    (GeneratePath cfg g s s).1.length = 31 := by
  simp only [GeneratePath, hE, hO, hM]
  norm_num
  rw [generateBezierPath_length, pathNumSteps_self]

/-- C5 amended: with path generation enabled and micro-movements disabled,
`GeneratePath(start, start)` returns a path every point of which equals
`start` exactly (so no coordinate is NaN — the zero-distance guard in
`generateControlPoints` avoids the division); with overshoot also disabled
the path has 31 points, not the claimed two-point `[start, end]`. -/
theorem path_zero_distance_spec (cfg : MouseMovementConfig) (g : Rng)
    (s : Point) (hE : cfg.enabled = true) (hM : cfg.microMovements = false) :
    (∀ p ∈ (GeneratePath cfg g s s).1, p = s) ∧
      (cfg.overshootEnabled = false → (GeneratePath cfg g s s).1.length = 31) :=
  ⟨GeneratePath_self_const cfg g s hE hM,
    fun hO => GeneratePath_self_length cfg g s hE hO hM⟩

/-- C5 witness: the amended theorem at the concrete enabled configuration
and `start = (0,0)`. -/
theorem path_zero_distance_spec_witness :
    mouseCfgPlain.enabled = true ∧ mouseCfgPlain.microMovements = false ∧
      ((∀ p ∈ (GeneratePath mouseCfgPlain gHalf ⟨0, 0⟩ ⟨0, 0⟩).1, p = Point.mk 0 0) ∧
        (mouseCfgPlain.overshootEnabled = false →
          (GeneratePath mouseCfgPlain gHalf ⟨0, 0⟩ ⟨0, 0⟩).1.length = 31)) :=
  ⟨rfl, rfl, path_zero_distance_spec mouseCfgPlain gHalf ⟨0, 0⟩ rfl rfl⟩

/-- C5 counterexample: with generation enabled, `GeneratePath` at
`start = end = (0,0)` returns 31 points, not the claimed exact two-point
path `[start, end]`. -/
theorem path_zero_distance_counterexample :
    (GeneratePath mouseCfgPlain gHalf ⟨0, 0⟩ ⟨0, 0⟩).1 ≠
      [Point.mk 0 0, Point.mk 0 0] := by
  intro hEq
  have hlen := congrArg List.length hEq
  rw [GeneratePath_self_length mouseCfgPlain gHalf ⟨0, 0⟩ rfl rfl rfl] at hlen
  simp at hlen

theorem pathNumSteps_1000_800 : pathNumSteps ⟨0, 0⟩ ⟨1000, 800⟩ = 200 := by
  simp only [pathNumSteps]
  have hsq : ((1000 : Real) - 0) ^ 2 + ((800 : Real) - 0) ^ 2 = 1640000 := by
    norm_num
  have hd : (603 : Real) ≤ Real.sqrt 1640000 := by
    rw [show (603 : Real) = Real.sqrt (603 ^ 2) by
      rw [Real.sqrt_sq (by norm_num : (0 : Real) ≤ 603)]]
    exact Real.sqrt_le_sqrt (by norm_num)
  have h200 : (200 : Int) < intTrunc (Real.sqrt 1640000 / 3) := by
    have h201 : (201 : Real) ≤ Real.sqrt 1640000 / 3 := by linarith
    unfold intTrunc
    rw [if_pos (by linarith)]
    have := Int.le_floor.mpr (show ((201 : Int) : Real) ≤ Real.sqrt 1640000 / 3 by
      push_cast
      linarith)
    omega
  rw [hsq]
  split_ifs <;> omega

theorem GeneratePath_plain (g : Rng) (s e : Point) :
    GeneratePath mouseCfgPlain g s e =
      generateBezierPath mouseCfgPlain g s e (pathNumSteps s e) := rfl

/-- C6 amended: for `start=(0,0)`, `end=(1000,800)`, complexity 3, no
overshoot and no micro-movements, `GeneratePath` returns `numSteps + 1 =
201` points (one more than the claimed upper clamp of 200), whose first
point is exactly `(0,0)` and whose last point is exactly `(1000,800)`. -/
theorem path_1000_800_spec (g : Rng) :
    (GeneratePath mouseCfgPlain g ⟨0, 0⟩ ⟨1000, 800⟩).1.length = 201 ∧
      (GeneratePath mouseCfgPlain g ⟨0, 0⟩ ⟨1000, 800⟩).1.head? = some ⟨0, 0⟩ ∧
      (GeneratePath mouseCfgPlain g ⟨0, 0⟩ ⟨1000, 800⟩).1.getLast? =
        some ⟨1000, 800⟩ := by
  rw [GeneratePath_plain, pathNumSteps_1000_800]
  refine ⟨?_, generateBezierPath_head _ _ _ _ _, ?_⟩
  · rw [generateBezierPath_length]
  · exact generateBezierPath_getLast _ _ _ _ 200 (by norm_num)

/-- C6 counterexample: at the claimed input the path has 201 points, which
does not lie in the claimed interval `[30, 200]`. -/
theorem path_1000_800_counterexample :
    (GeneratePath mouseCfgPlain gHalf ⟨0, 0⟩ ⟨1000, 800⟩).1.length = 201 ∧
      ¬(30 ≤ 201 ∧ 201 ≤ 200) := by
  constructor
  · rw [GeneratePath_plain, pathNumSteps_1000_800, generateBezierPath_length]
  · omega

theorem cpGo_rng (s : Point) (dx dy dist : Real) (len : Nat) :
    ∀ (k i : Nat) (g : Rng), (cpGo s dx dy dist len i k g).2 = advF g k
  | 0, _, _ => rfl
  | k + 1, i, g => by
      simp only [cpGo]
      rw [cpGo_rng s dx dy dist len k (i + 1) (nextF g).2]
      rfl

theorem path_dist_ne_zero (s e : Point) (h : s ≠ e) :
    Real.sqrt ((e.X - s.X) * (e.X - s.X) + (e.Y - s.Y) * (e.Y - s.Y)) ≠ 0 := by
  intro h0
  rw [Real.sqrt_eq_zero'] at h0
  have h1 : (0 : Real) ≤ (e.X - s.X) * (e.X - s.X) := mul_self_nonneg _
  have h2 : (0 : Real) ≤ (e.Y - s.Y) * (e.Y - s.Y) := mul_self_nonneg _
  have hx : (e.X - s.X) * (e.X - s.X) = 0 := by linarith
  have hy : (e.Y - s.Y) * (e.Y - s.Y) = 0 := by linarith
  have hX : s.X = e.X := by have := mul_self_eq_zero.mp hx; linarith
  have hY : s.Y = e.Y := by have := mul_self_eq_zero.mp hy; linarith
  exact h (Point.ext hX hY)

theorem generateControlPoints_rng (cfg : MouseMovementConfig) (g : Rng)
    (s e : Point)
    (h : Real.sqrt ((e.X - s.X) * (e.X - s.X) + (e.Y - s.Y) * (e.Y - s.Y)) ≠ 0) :
    (generateControlPoints cfg g s e).2 =
      advF g (if cfg.bezierComplexity < 2 then 2 else cfg.bezierComplexity) := by
  simp only [generateControlPoints]
  rw [if_neg h]
  exact cpGo_rng s _ _ _ _ _ 1 g

theorem addOvershoot_decomp (cfg : MouseMovementConfig) (g : Rng)
    (path : List Point) (e : Point) (hne : path ≠ [])
    (hlast : path.getLastD ⟨0, 0⟩ = e) :
    (addOvershoot cfg g path e).1 =
        path ++ e :: ((generateBezierPath cfg (nextF g).2 e e 20).1.drop 1) ∧
      (addOvershoot cfg g path e).1.getLast? = some e := by
  simp only [addOvershoot]
  rw [if_neg (by simpa [List.isEmpty_iff] using hne)]
  have hovs : Point.mk (e.X + (e.X - (path.getLastD ⟨0, 0⟩).X) *
        (5 + (nextF g).1 * 15) / 100)
      (e.Y + (e.Y - (path.getLastD ⟨0, 0⟩).Y) * (5 + (nextF g).1 * 15) / 100) = e := by
    rw [hlast]
    refine Point.ext ?_ ?_ <;> dsimp <;> ring
  rw [hovs]
  have hconst : ∀ q ∈ (generateBezierPath cfg (nextF g).2 e e 20).1.drop 1, q = e :=
    fun q hq =>
      generateBezierPath_self_const cfg (nextF g).2 e 20 q (List.drop_subset 1 _ hq)
  refine ⟨rfl, ?_⟩
  rw [List.getLast?_append_of_ne_nil path (by simp)]
  exact getLast?_cons_const e _ hconst

theorem GeneratePath_overshoot_decomp (g : Rng) (s e : Point) (hne : s ≠ e)
    (htrig : g.floats 3 < 0.3) :
    (GeneratePath mouseCfgOvershoot g s e).1 =
        (generateBezierPath mouseCfgOvershoot g s e (pathNumSteps s e)).1 ++
          e :: ((generateBezierPath mouseCfgOvershoot (advF g 5) e e 20).1.drop 1) ∧
      (GeneratePath mouseCfgOvershoot g s e).1.getLast? = some e := by
  have hrng : (generateBezierPath mouseCfgOvershoot g s e (pathNumSteps s e)).2 =
      advF g 3 := by
    show (generateControlPoints mouseCfgOvershoot g s e).2 = advF g 3
    rw [generateControlPoints_rng _ _ _ _ (path_dist_ne_zero s e hne)]
    rfl
  have hn0 : pathNumSteps s e ≠ 0 := by
    have := pathNumSteps_ge s e
    omega
  have hlastD :
      (generateBezierPath mouseCfgOvershoot g s e (pathNumSteps s e)).1.getLastD
        ⟨0, 0⟩ = e := by
    rw [List.getLastD_eq_getLast?,
      generateBezierPath_getLast mouseCfgOvershoot g s e _ hn0]
    rfl
  have hne' : (generateBezierPath mouseCfgOvershoot g s e (pathNumSteps s e)).1 ≠ [] := by
    intro hE
    have hl := generateBezierPath_length mouseCfgOvershoot g s e (pathNumSteps s e)
    rw [hE] at hl
    simp at hl
  have hdec := addOvershoot_decomp mouseCfgOvershoot (advF g 4) _ e hne' hlastD
  have hGP : GeneratePath mouseCfgOvershoot g s e =
      if (nextF (generateBezierPath mouseCfgOvershoot g s e (pathNumSteps s e)).2).1
          < 0.3 then
        addOvershoot mouseCfgOvershoot
          (nextF (generateBezierPath mouseCfgOvershoot g s e (pathNumSteps s e)).2).2
          (generateBezierPath mouseCfgOvershoot g s e (pathNumSteps s e)).1 e
      else ((generateBezierPath mouseCfgOvershoot g s e (pathNumSteps s e)).1,
        (nextF (generateBezierPath mouseCfgOvershoot g s e (pathNumSteps s e)).2).2) :=
    rfl
  rw [hGP, hrng, if_pos (show (nextF (advF g 3)).1 < 0.3 from htrig)]
  exact ⟨hdec.1, hdec.2⟩

/-- C7 amended: whenever the overshoot branch triggers, the appended
"overshoot" point coincides exactly with the target (zero, not a positive
5-20 percent, distance past it), because the sampled Bezier path already
ends exactly at the target; the 20-step corrective sub-curve ends exactly
at the target, so the final path point equals `end` exactly. -/
theorem overshoot_appends_exact_target (g : Rng) (s e : Point) (hne : s ≠ e)
    (htrig : g.floats 3 < 0.3) :
    (GeneratePath mouseCfgOvershoot g s e).1 =
        (generateBezierPath mouseCfgOvershoot g s e (pathNumSteps s e)).1 ++
          e :: ((generateBezierPath mouseCfgOvershoot (advF g 5) e e 20).1.drop 1) ∧
      (GeneratePath mouseCfgOvershoot g s e).1.getLast? = some e :=
  GeneratePath_overshoot_decomp g s e hne htrig

/-- C7 witness: the amended theorem at `start=(0,0)`, `end=(300,400)` with
an oracle whose trigger draw is `1/10 < 0.3`. -/
theorem overshoot_appends_exact_target_witness :
    (Point.mk 0 0 ≠ Point.mk 300 400) ∧ gTenth.floats 3 < 0.3 ∧
      ((GeneratePath mouseCfgOvershoot gTenth ⟨0, 0⟩ ⟨300, 400⟩).1 =
          (generateBezierPath mouseCfgOvershoot gTenth ⟨0, 0⟩ ⟨300, 400⟩
            (pathNumSteps ⟨0, 0⟩ ⟨300, 400⟩)).1 ++
            Point.mk 300 400 ::
              ((generateBezierPath mouseCfgOvershoot (advF gTenth 5) ⟨300, 400⟩
                ⟨300, 400⟩ 20).1.drop 1) ∧
        (GeneratePath mouseCfgOvershoot gTenth ⟨0, 0⟩ ⟨300, 400⟩).1.getLast? =
          some ⟨300, 400⟩) :=
  ⟨by intro h; rw [Point.mk.injEq] at h; exact absurd h.1 (by norm_num),
    by show (1 : Real) / 10 < 0.3; norm_num,
    overshoot_appends_exact_target gTenth ⟨0, 0⟩ ⟨300, 400⟩
      (by intro h; rw [Point.mk.injEq] at h; exact absurd h.1 (by norm_num))
      (by show (1 : Real) / 10 < 0.3; norm_num)⟩

theorem pathNumSteps_300_400 : pathNumSteps ⟨0, 0⟩ ⟨300, 400⟩ = 166 := by
  simp only [pathNumSteps]
  norm_num
  rw [show (250000 : Real) = 500 ^ 2 by norm_num,
    Real.sqrt_sq (by norm_num : (0 : Real) ≤ 500)]
  have h166 : intTrunc ((500 : Real) / 3) = 166 := by
    unfold intTrunc
    rw [if_pos (by norm_num), Int.floor_eq_iff]
    constructor <;> norm_num
  rw [h166]
  norm_num
  rfl

/-- C7 counterexample: at `start=(0,0)`, `end=(300,400)` with the trigger
firing, the appended overshoot point (index 167, right after the 167-point
base path) equals the target `(300,400)` exactly — it does not lie a
positive 5-20 percent distance past the target as claimed. -/
theorem overshoot_counterexample :
    gTenth.floats 3 < 0.3 ∧
      (GeneratePath mouseCfgOvershoot gTenth ⟨0, 0⟩ ⟨300, 400⟩).1[167]? =
        some (Point.mk 300 400) := by
  have h1 : gTenth.floats 3 < (0.3 : Real) := by
    show (1 : Real) / 10 < 0.3
    norm_num
  have hne : Point.mk 0 0 ≠ Point.mk 300 400 := by
    intro h
    rw [Point.mk.injEq] at h
    exact absurd h.1 (by norm_num)
  obtain ⟨hdec, -⟩ := GeneratePath_overshoot_decomp gTenth ⟨0, 0⟩ ⟨300, 400⟩ hne h1
  refine ⟨h1, ?_⟩
  rw [hdec]
  have hlen : (generateBezierPath mouseCfgOvershoot gTenth ⟨0, 0⟩ ⟨300, 400⟩
      (pathNumSteps ⟨0, 0⟩ ⟨300, 400⟩)).1.length = 167 := by
    rw [generateBezierPath_length, pathNumSteps_300_400]
  rw [List.getElem?_append_right (by omega : (generateBezierPath mouseCfgOvershoot
    gTenth ⟨0, 0⟩ ⟨300, 400⟩ (pathNumSteps ⟨0, 0⟩ ⟨300, 400⟩)).1.length ≤ 167)]
  rw [hlen]
  norm_num

theorem replayStep_char (acc : List Char) (c : Char) (d : Int) (t : Bool) :
    replayStep acc (KeyStroke.mk c d t false) = acc ++ [c] := rfl

theorem replayStep_backspace (acc : List Char) (c : Char) (d : Int) (t : Bool) :
    replayStep acc (KeyStroke.mk c d t true) = acc.dropLast := rfl

theorem genKeystrokes_replay (cfg : TypingConfig) (text : List Char) :
    ∀ (rest : List Char) (i : Nat) (g : Rng) (acc : List Char),
      List.foldl replayStep acc (genKeystrokes cfg text i rest g).1 = acc ++ rest
  | [], i, g, acc => by simp [genKeystrokes]
  | c :: rest, i, g, acc => by
      simp only [genKeystrokes]
      split_ifs with h <;>
      · simp only [List.foldl_cons, replayStep_char, replayStep_backspace,
          List.dropLast_concat]
        rw [genKeystrokes_replay cfg text rest (i + 1) _ _]
        simp

theorem replay_plain (text : List Char) :
    ∀ acc, List.foldl replayStep acc
      (text.map (fun c => KeyStroke.mk c 0 false false)) = acc ++ text := by
  induction text with
  | nil => intro acc; simp
  | cons c rest ih =>
      intro acc
      rw [List.map_cons, List.foldl_cons, replayStep_char, ih]
      simp

theorem disabled_keystrokes_ascii (text : List Char)
    (hA : ∀ c ∈ text, utf8Len c = 1) :
    text.foldr
        (fun c acc =>
          KeyStroke.mk c 0 false false ::
            (List.replicate (utf8Len c - 1) zeroKS ++ acc)) [] =
      text.map (fun c => KeyStroke.mk c 0 false false) := by
  induction text with
  | nil => rfl
  | cons c rest ih =>
      rw [List.foldr_cons, List.map_cons, hA c (by simp), ih
        (fun x hx => hA x (by simp [hx]))]
      rfl

/-- C2 amended: replaying the keystroke sequence (append each
non-backspace character, drop the previous character on backspace)
reconstructs the text exactly whenever typing stealth is enabled (any
text, any chances), or whenever it is disabled and the text contains only
single-byte (ASCII) runes.  With stealth disabled, multi-byte runes leave
zero-valued keystrokes behind, so reconstruction fails. -/
theorem keystrokes_replay (cfg : TypingConfig) (g : Rng) (text : List Char)
    (h : cfg.enabled = true ∨ ∀ c ∈ text, utf8Len c = 1) :
    replayKeystrokes (GenerateKeystrokes cfg g text).1 = text := by
  unfold GenerateKeystrokes replayKeystrokes
  split_ifs with hEn
  · rcases h with hE | hA
    · rw [hE] at hEn
      cases hEn
    · rw [disabled_keystrokes_ascii text hA, replay_plain]
      simp
  · have := genKeystrokes_replay cfg text text 0 g []
    simpa using this

/-- C2 witness: the amended theorem at an enabled configuration and the
text "ab". -/
theorem keystrokes_replay_witness :
    (cfgTypingOn.enabled = true ∨ ∀ c ∈ (['a', 'b'] : List Char), utf8Len c = 1) ∧
      replayKeystrokes (GenerateKeystrokes cfgTypingOn gHalf ['a', 'b']).1 =
        ['a', 'b'] :=
  ⟨Or.inl rfl, keystrokes_replay cfgTypingOn gHalf ['a', 'b'] (Or.inl rfl)⟩

/-- C2 counterexample: with typing stealth disabled, the two-byte rune
`'é'` yields a zero-valued second keystroke, so the replay reconstructs
`['é', NUL]` instead of `['é']`. -/
theorem keystrokes_replay_counterexample :
    replayKeystrokes (GenerateKeystrokes cfgTypingOff gHalf ['é']).1 ≠ ['é'] := by
  decide

theorem backoff_jitter_le (y : Int) (u : Real) (hy : 0 < y) (hu0 : 0 ≤ u)
    (hu1 : u < 1) : 10 * intTrunc ((y : Real) * 0.3 * u) ≤ 3 * y := by
  have hy' : (0 : Real) ≤ (y : Real) := by exact_mod_cast hy.le
  have h1 : (intTrunc ((y : Real) * 0.3 * u) : Real) ≤ (y : Real) * 0.3 * u :=
    intTrunc_le (by positivity)
  have h2 : (y : Real) * 0.3 * u ≤ (y : Real) * 0.3 :=
    mul_le_of_le_one_right (by positivity) hu1.le
  have : (10 * intTrunc ((y : Real) * 0.3 * u) : Real) ≤ 3 * (y : Real) := by
    nlinarith
  exact_mod_cast this

theorem backoff_val (g : Rng) (x : Nat) (base cap : Int) (hbase : 0 < base)
    (hcap : 0 < cap) (hu0 : 0 ≤ g.floats 0) (hu1 : g.floats 0 < 1)
    (hx : base * 2 ^ x < 2 ^ 63) (hcapb : 13 * cap < 10 * 2 ^ 63) :
    (ExponentialBackoff g x base cap).1 =
      (if base * 2 ^ x > cap then cap else base * 2 ^ x) +
        intTrunc (((if base * 2 ^ x > cap then cap else base * 2 ^ x : Int) : Real)
          * 0.3 * g.floats 0) := by
  have hpow : (0 : Int) < 2 ^ x := pow_pos (by norm_num) x
  have hshift : wrap64 (2 ^ x) = 2 ^ x := by
    refine wrap64_eq_self (le_trans (by norm_num) hpow.le) ?_
    calc (2 : Int) ^ x ≤ base * 2 ^ x := le_mul_of_one_le_left hpow.le hbase
      _ < 2 ^ 63 := hx
  have hdelay : wrap64 (base * 2 ^ x) = base * 2 ^ x :=
    wrap64_eq_self (le_trans (by norm_num) (mul_pos hbase hpow).le) hx
  have hy1 : (0 : Int) < if base * 2 ^ x > cap then cap else base * 2 ^ x := by
    split_ifs
    · exact hcap
    · exact mul_pos hbase hpow
  have hy2 : (if base * 2 ^ x > cap then cap else base * 2 ^ x) ≤ cap := by
    split_ifs <;> omega
  have hj0 : 0 ≤ intTrunc
      (((if base * 2 ^ x > cap then cap else base * 2 ^ x : Int) : Real)
        * 0.3 * g.floats 0) := by
    refine intTrunc_nonneg ?_
    have hc : (0 : Real) ≤
        ((if base * 2 ^ x > cap then cap else base * 2 ^ x : Int) : Real) := by
      exact_mod_cast hy1.le
    positivity
  have hjle := backoff_jitter_le (if base * 2 ^ x > cap then cap else base * 2 ^ x)
    (g.floats 0) hy1 hu0 hu1
  simp only [ExponentialBackoff, hshift, hdelay, nextF]
  rw [wrap64_eq_self (by omega) (by omega)]

/-- C8 amended: the jittered return value is NOT monotone in `attempt`
(see the counterexample), but in the overflow-free range the clamped
pre-jitter delay `min(base*2^attempt, cap)` is non-decreasing, and for a
fixed jitter draw the full returned value is non-decreasing in `attempt`
and never exceeds `cap * 1.3`. -/
theorem backoff_bounded_and_monotone (g : Rng) (a b : Nat) (base cap : Int)
    (hbase : 0 < base) (hcap : 0 < cap) (hu0 : 0 ≤ g.floats 0)
    (hu1 : g.floats 0 < 1) (hab : a ≤ b) (hov : base * 2 ^ b < 2 ^ 63)
    (hcapb : 13 * cap < 10 * 2 ^ 63) :
    (ExponentialBackoff g a base cap).1 ≤ (ExponentialBackoff g b base cap).1 ∧
      10 * (ExponentialBackoff g a base cap).1 ≤ 13 * cap := by
  have hmono : base * 2 ^ a ≤ base * 2 ^ b :=
    mul_le_mul_of_nonneg_left (pow_le_pow_right₀ (by norm_num) hab) hbase.le
  have hova : base * 2 ^ a < 2 ^ 63 := lt_of_le_of_lt hmono hov
  rw [backoff_val g a base cap hbase hcap hu0 hu1 hova hcapb,
    backoff_val g b base cap hbase hcap hu0 hu1 hov hcapb]
  set Da : Int := if base * 2 ^ a > cap then cap else base * 2 ^ a with hDa
  set Db : Int := if base * 2 ^ b > cap then cap else base * 2 ^ b with hDb
  have hpa : (0 : Int) < 2 ^ a := pow_pos (by norm_num) a
  have hpb : (0 : Int) < 2 ^ b := pow_pos (by norm_num) b
  have hDa1 : 0 < Da := by
    rw [hDa]
    split_ifs
    · exact hcap
    · exact mul_pos hbase hpa
  have hDb1 : 0 < Db := by
    rw [hDb]
    split_ifs
    · exact hcap
    · exact mul_pos hbase hpb
  have hDale : Da ≤ cap := by rw [hDa]; split_ifs <;> omega
  have hDmono : Da ≤ Db := by
    rw [hDa, hDb]
    split_ifs <;> omega
  have hjmono : intTrunc ((Da : Real) * 0.3 * g.floats 0) ≤
      intTrunc ((Db : Real) * 0.3 * g.floats 0) := by
    have hDa' : (0 : Real) ≤ (Da : Real) := by exact_mod_cast hDa1.le
    refine intTrunc_mono (by positivity) ?_
    have : (Da : Real) ≤ (Db : Real) := by exact_mod_cast hDmono
    have h03 : (Da : Real) * 0.3 ≤ (Db : Real) * 0.3 := by linarith
    exact mul_le_mul_of_nonneg_right h03 hu0
  have hja := backoff_jitter_le Da (g.floats 0) hDa1 hu0 hu1
  exact ⟨by omega, by omega⟩

/-- C8 witness: the amended theorem at `base = 1ms`, `cap = 100ms`,
attempts 0 and 3, jitter draw `1/2`. -/
theorem backoff_bounded_and_monotone_witness :
    (0 : Int) < 1000000 ∧ (0 : Int) < 100000000 ∧
      (0 : Real) ≤ gHalf.floats 0 ∧ gHalf.floats 0 < 1 ∧ (0 : Nat) ≤ 3 ∧
      (1000000 : Int) * 2 ^ 3 < 2 ^ 63 ∧
      (13 : Int) * 100000000 < 10 * 2 ^ 63 ∧
      ((ExponentialBackoff gHalf 0 1000000 100000000).1 ≤
          (ExponentialBackoff gHalf 3 1000000 100000000).1 ∧
        10 * (ExponentialBackoff gHalf 0 1000000 100000000).1 ≤
          13 * 100000000) :=
  ⟨by norm_num, by norm_num, by norm_num [gHalf], by norm_num [gHalf],
    by norm_num, by norm_num, by norm_num,
    backoff_bounded_and_monotone gHalf 0 3 1000000 100000000 (by norm_num)
      (by norm_num) (by norm_num [gHalf]) (by norm_num [gHalf]) (by norm_num)
      (by norm_num) (by norm_num)⟩

/-- C8 counterexample: with `base = cap = 100`, attempt 0 draws jitter
`99/100` giving 129, while attempt 1 (clamped to the cap) draws jitter `0`
giving 100 — the returned value decreases, so `ExponentialBackoff` is not
non-decreasing in `attempt`. -/
theorem backoff_not_monotone_counterexample :
    (ExponentialBackoff gBack 0 100 100).1 = 129 ∧
      (ExponentialBackoff (ExponentialBackoff gBack 0 100 100).2 1 100 100).1 = 100 ∧
      ¬((129 : Int) ≤ 100) := by
  have hu : gBack.floats 0 = 99 / 100 := rfl
  have h129 : intTrunc ((297 : Real) / 10) = 29 := by
    unfold intTrunc
    rw [if_pos (by norm_num), Int.floor_eq_iff]
    constructor <;> norm_num
  constructor
  · rw [backoff_val gBack 0 100 100 (by norm_num) (by norm_num)
      (by rw [hu]; norm_num) (by rw [hu]; norm_num) (by norm_num) (by norm_num)]
    norm_num [hu]
    rw [h129]
    norm_num
  constructor
  · have hg2 : (ExponentialBackoff gBack 0 100 100).2 = (nextF gBack).2 := rfl
    rw [hg2]
    have hu2 : (nextF gBack).2.floats 0 = 0 := rfl
    rw [backoff_val (nextF gBack).2 1 100 100 (by norm_num) (by norm_num)
      (by rw [hu2]) (by rw [hu2]; norm_num) (by norm_num) (by norm_num)]
    norm_num [hu2, intTrunc_zero]
  · norm_num

end LinkedInAuto
